import Mathlib

/-!
Verification of the function_plotter repository (function_plotter.py, plotter_gui.py).

The Python source is shallowly embedded: string manipulation is modelled over
`List Char`, sympy expressions as a small AST with `Option`-valued rational
evaluation (an undefined sample is `none`, matching numpy's NaN-not-raise
semantics), numpy's `linspace`/`meshgrid` as list constructions over `ℚ`,
filesystem existence as an injectable `String → Bool` predicate, and the
`while os.path.exists` loop of `get_safe_filename` as a fuel-indexed recursion.
-/

namespace FunctionPlotter

/-! ### Python string primitives -/

/-- Python `s.replace('^', '**')`, the caret normalization used by
`validate_function`, `plot_function` and `plot_equation`. -/
def replaceCaret : List Char → List Char
  | [] => []
  | c :: rest => if c = '^' then '*' :: '*' :: replaceCaret rest else c :: replaceCaret rest

/-- The normalizer applied to a raw input string. -/
def normalizeCarets (s : String) : String := String.mk (replaceCaret s.data)

/-- Python `s.replace(c, '')` for a single character `c`. -/
def removeAllChar (c : Char) (l : List Char) : List Char := l.filter (fun a => a != c)

/-- Scanner for `s.replace(p, '')`: the counter records how many characters of
a matched occurrence remain to be skipped. -/
def removeSubAux (p : List Char) : List Char → ℕ → List Char
  | [], _ => []
  | _ :: rest, Nat.succ k => removeSubAux p rest k
  | a :: rest, 0 =>
    if p.isPrefixOf (a :: rest) && !p.isEmpty then removeSubAux p rest (p.length - 1)
    else a :: removeSubAux p rest 0

/-- Python `s.replace(p, '')` for a substring pattern `p`: scan left to right,
on a match skip the matched block and continue after it. -/
def removeSub (p : List Char) (l : List Char) : List Char := removeSubAux p l 0

/-- Python `p in s` (substring containment). -/
def containsSub (p : List Char) : List Char → Bool
  | [] => p.isEmpty
  | a :: rest => p.isPrefixOf (a :: rest) || containsSub p rest

/-- Python `s.split(c)` for a one-character separator: split on EVERY
occurrence of `c`. -/
def splitOnChar (c : Char) : List Char → List (List Char)
  | [] => [[]]
  | a :: rest =>
    match splitOnChar c rest with
    | [] => [[]]
    | h :: t => if a = c then [] :: h :: t else (a :: h) :: t

/-- Python `s.split(c)` at the `String` level. -/
def pySplit (s : String) (c : Char) : List String := (splitOnChar c s.data).map String.mk

/-- Python `s.endswith(suffixStr)`. -/
def strEndsWith (s sufStr : String) : Bool := sufStr.data.isSuffixOf s.data

/-- `os.path.splitext` on a plain file name (no directory separators): split at
the last dot, unless every character before that dot is itself a dot (leading
dots of a hidden file are not an extension separator). -/
def splitextList (l : List Char) : List Char × List Char :=
  match l.reverse.findIdx? (fun a => a == '.') with
  | none => (l, [])
  | some i =>
    let cut := l.length - 1 - i
    let pre := l.take cut
    if pre.all (fun a => a == '.') then (l, []) else (pre, l.drop cut)

/-- `os.path.splitext` at the `String` level. -/
def splitext (s : String) : String × String :=
  let ne := splitextList s.data
  (String.mk ne.1, String.mk ne.2)

/-! ### Decimal rendering of counters (`Nat.repr` model)

`get_safe_filename` renders its counter with Python's decimal formatting; the
embedding uses `Nat.repr`. `decChars` is a structurally transparent decimal
digit list used to prove `Nat.repr` injective. -/

/-- Decimal digit characters of `n`, most significant first. -/
def decChars (n : ℕ) : List Char :=
  if n < 10 then [Nat.digitChar n]
  else decChars (n / 10) ++ [Nat.digitChar (n % 10)]
termination_by n
decreasing_by
  exact Nat.div_lt_self (by omega) (by omega)

/-! ### Expression AST and evaluation

Models a sympy expression after `sympify`, with `lambdify(..., "numpy")`
evaluation: an undefined sample (division by zero) yields `none` (numpy NaN)
instead of raising. -/

/-- One-variable symbolic expression (function case `f(x)`). -/
inductive Expr : Type where
  | num : ℚ → Expr
  | var : Expr
  | add : Expr → Expr → Expr
  | sub : Expr → Expr → Expr
  | mul : Expr → Expr → Expr
  | div : Expr → Expr → Expr
  | neg : Expr → Expr
  | npow : Expr → ℕ → Expr
deriving DecidableEq, Repr

/-- Numeric evaluation of a one-variable expression at `v`; `none` models NaN. -/
def Expr.eval : Expr → ℚ → Option ℚ
  | .num c, _ => some c
  | .var, v => some v
  | .add a b, v =>
    match a.eval v, b.eval v with
    | some p, some q => some (p + q)
    | _, _ => none
  | .sub a b, v =>
    match a.eval v, b.eval v with
    | some p, some q => some (p - q)
    | _, _ => none
  | .mul a b, v =>
    match a.eval v, b.eval v with
    | some p, some q => some (p * q)
    | _, _ => none
  | .div a b, v =>
    match a.eval v, b.eval v with
    | some p, some q => if q = 0 then none else some (p / q)
    | _, _ => none
  | .neg a, v => (a.eval v).map (fun p => -p)
  | .npow a n, v => (a.eval v).map (fun p => p ^ n)

/-- Two-variable symbolic expression (equation case `F(x, y)`). -/
inductive Expr2 : Type where
  | num : ℚ → Expr2
  | varX : Expr2
  | varY : Expr2
  | add : Expr2 → Expr2 → Expr2
  | sub : Expr2 → Expr2 → Expr2
  | mul : Expr2 → Expr2 → Expr2
  | div : Expr2 → Expr2 → Expr2
  | neg : Expr2 → Expr2
  | npow : Expr2 → ℕ → Expr2
deriving DecidableEq, Repr

/-- Numeric evaluation of a two-variable expression at `(vx, vy)`. -/
def Expr2.eval : Expr2 → ℚ → ℚ → Option ℚ
  | .num c, _, _ => some c
  | .varX, vx, _ => some vx
  | .varY, _, vy => some vy
  | .add a b, vx, vy =>
    match a.eval vx vy, b.eval vx vy with
    | some p, some q => some (p + q)
    | _, _ => none
  | .sub a b, vx, vy =>
    match a.eval vx vy, b.eval vx vy with
    | some p, some q => some (p - q)
    | _, _ => none
  | .mul a b, vx, vy =>
    match a.eval vx vy, b.eval vx vy with
    | some p, some q => some (p * q)
    | _, _ => none
  | .div a b, vx, vy =>
    match a.eval vx vy, b.eval vx vy with
    | some p, some q => if q = 0 then none else some (p / q)
    | _, _ => none
  | .neg a, vx, vy => (a.eval vx vy).map (fun p => -p)
  | .npow a n, vx, vy => (a.eval vx vy).map (fun p => p ^ n)

/-! ### Sampler (`np.linspace`, `np.meshgrid`) -/

/-- `np.linspace(a, b, n)` over exact rationals: `n` evenly spaced points from
`a` to `b` inclusive. -/
def linspace (a b : ℚ) (n : ℕ) : List ℚ :=
  (List.range n).map (fun i : ℕ => a + (b - a) * (i : ℚ) / ((n : ℚ) - 1))

/-- `x_vals = np.linspace(x_min, x_max, 1000)` of `plot_function`. -/
def function_sample_xs (a b : ℚ) : List ℚ := linspace a b 1000

/-- `y_vals = f(x_vals)` of `plot_function`: element-wise evaluation. -/
def function_sample_ys (E : Expr) (a b : ℚ) : List (Option ℚ) :=
  (function_sample_xs a b).map E.eval

/-- `Z = f(X, Y)` over the `400×400` meshgrid of `plot_equation`:
row `i` ranges over `y` samples, column `j` over `x` samples. -/
def equation_grid_Z (F : Expr2) (xm xM ym yM : ℚ) : List (List (Option ℚ)) :=
  (linspace ym yM 400).map (fun vy => (linspace xm xM 400).map (fun vx => F.eval vx vy))

/-! ### Normalizer / validator -/

/-- `validate_function`: replace carets, try the symbolic parser (abstracted as
`parse`), return the rewritten string on success; on any parser exception raise
`ValueError("Invalid function expression")`, discarding the parser message. -/
def validate_function (parse : String → Except String Unit) (s : String) : Except String String :=
  match parse (normalizeCarets s) with
  | .ok _ => .ok (normalizeCarets s)
  | .error _ => .error "Invalid function expression"

/-- Result of equation normalization: the strings fed to `sympify`.
`diff l r` stands for the implicit expression `sympify(l) - sympify(r)`;
`plain e` stands for `sympify(e)` itself (the `Eq(expr, 0)` case). -/
inductive EqForm : Type where
  | diff : String → String → EqForm
  | plain : String → EqForm
deriving DecidableEq, Repr

/-- Equation-string handling of `plot_equation` / `plot_equation_gui_preview`:
replace carets, then `left, right = equation_str.split('=')` when an `=` is
present (Python splits on EVERY `=`; the 2-tuple unpacking fails unless there
is exactly one), else treat the whole string as `expr` with `Eq(expr, 0)`. -/
def normalize_equation (s : String) : Except String EqForm :=
  let t := normalizeCarets s
  if '=' ∈ t.data then
    match pySplit t '=' with
    | [l, r] => .ok (.diff l r)
    | _ => .error "too many values to unpack"
  else .ok (.plain t)

/-- Modelled from the spec: split on the FIRST occurrence of `=` into left and
right sub-strings, treating the entire remainder (including any further `=`
characters) as the right side. Stated only to compare the claimed policy with
the source's `normalize_equation`. -/
def splitFirstEq (s : String) : EqForm :=
  let t := normalizeCarets s
  if '=' ∈ t.data then
    .diff (String.mk (t.data.takeWhile (fun a => a != '=')))
      (String.mk ((t.data.dropWhile (fun a => a != '=')).tail))
  else .plain t

/-! ### LaTeX display sanitization -/

/-- Success branch of `clean_latex_expression`: strip `$`, then `\left`, then
`\right` from the `latex(expr)` output. -/
def clean_latex_string (tex : String) : String :=
  String.mk (removeSub "\\right".data (removeSub "\\left".data (removeAllChar '$' tex.data)))

/-- `clean_latex_expression`: sanitize the `latex(expr)` result when the
conversion succeeds; on an exception fall back to `str(expr)` unsanitized. -/
def clean_latex_expression (latexed : Except String String) (fallbackStr : String) : String :=
  match latexed with
  | .ok tex => clean_latex_string tex
  | .error _ => fallbackStr

/-- Function-plot title `rf'$f(x) = {tex_expr}$'` built from a typeset string. -/
def function_plot_title (texExpr : String) : String := "$f(x) = " ++ texExpr ++ "$"

/-- Function-plot legend label, identical construction to the title. -/
def function_legend_label (texExpr : String) : String := "$f(x) = " ++ texExpr ++ "$"

/-- Equation-plot title `rf'${latex(eq)}$'` built from a typeset string. -/
def equation_plot_title (texEq : String) : String := "$" ++ texEq ++ "$"

/-- The title `plot_function` actually displays: built from the SANITIZED
expression (`tex_expr = clean_latex_expression(expr)`). -/
def function_title_of (latexed : Except String String) (fallbackStr : String) : String :=
  function_plot_title (clean_latex_expression latexed fallbackStr)

/-- The legend label `plot_function` actually displays. -/
def function_legend_of (latexed : Except String String) (fallbackStr : String) : String :=
  function_legend_label (clean_latex_expression latexed fallbackStr)

/-- The title `plot_equation` actually displays: built from the RAW
`latex(eq)` string (the sanitized `tex_expr` is computed but unused). -/
def equation_title_of (texEqRaw : String) : String := equation_plot_title texEqRaw

/-! ### Exporter: filename resolution and save-with-fallback -/

/-- Steps 1-2 of `get_safe_filename`: default empty input to `"output"`, append
`.<fmt>` unless already present. -/
def addExtension (base fmt : String) : String :=
  let b := if base = "" then "output" else base
  if strEndsWith b ("." ++ fmt) then b else b ++ "." ++ fmt

/-- The candidate tried at counter `k`:
`f"{name}_{counter}{ext}"` with `name, ext = os.path.splitext(base_filename)`. -/
def safe_candidate (base : String) (k : ℕ) : String :=
  (splitext base).1 ++ "_" ++ Nat.repr k ++ (splitext base).2

/-- The `while os.path.exists(final_filename)` loop of `get_safe_filename`,
fuel-indexed; filesystem existence is the injectable predicate `ex`. -/
def safe_loop (ex : String → Bool) (base : String) : ℕ → ℕ → String → String
  | 0, _, cur => cur
  | fuel + 1, counter, cur =>
    if ex cur then safe_loop ex base fuel (counter + 1) (safe_candidate base counter)
    else cur

/-- `get_safe_filename(base_filename, format)` with existence predicate `ex`. -/
def get_safe_filename (ex : String → Bool) (fuel : ℕ) (base fmt : String) : String :=
  safe_loop ex (addExtension base fmt) fuel 1 (addExtension base fmt)

/-- The derived fallback name `f"output_{hash(input) % 10000}.{format}"`. -/
def derived_fallback_name (hashv : ℕ) (fmt : String) : String :=
  "output_" ++ Nat.repr (hashv % 10000) ++ "." ++ fmt

/-- The save step of `plot_function` / `plot_equation`: try `plt.savefig` on
the requested name; on failure retry ONCE on the derived fallback name; a
second failure propagates (handled by the outer catch-all). Returns the name
actually saved (if any) and the list of files written. -/
def save_with_fallback (saveOk : String → Bool) (hashv : ℕ) (fname fmt : String) :
    Option String × List String :=
  if saveOk fname then (some fname, [fname])
  else
    if saveOk (derived_fallback_name hashv fmt) then
      (some (derived_fallback_name hashv fmt), [derived_fallback_name hashv fmt])
    else (none, [])

/-- `export_current_figure` of the GUI: a single `fig.savefig` attempt with no
fallback; returns the success flag and the status message. -/
def gui_export (saveOk : String → Bool) (fname fmt : String) : Bool × String :=
  if saveOk fname then (true, "Plot exported as " ++ fname)
  else (false, "Error exporting plot")

/-! ### Public plot operations (the outer try/except boundary) -/

/-- `plot_function`: every internal failure (parse, evaluation, double save
failure) is caught and turned into `False`; returns the success flag and the
files written. -/
def plot_function_run (parse_ok eval_ok : Bool) (saveOk : String → Bool) (hashv : ℕ)
    (fname fmt : String) : Bool × List String :=
  if parse_ok && eval_ok then
    match save_with_fallback saveOk hashv fname fmt with
    | (some _, w) => (true, w)
    | (none, w) => (false, w)
  else (false, [])

/-- Whether the parsing stage of `plot_equation` succeeds: the `=`-split must
unpack and each side must sympify. -/
def equation_parse_ok (sympify_ok : String → Bool) (eqn : String) : Bool :=
  match normalize_equation eqn with
  | .error _ => false
  | .ok (.diff l r) => sympify_ok l && sympify_ok r
  | .ok (.plain e) => sympify_ok e

/-- `plot_equation`: same catch-all boundary as `plot_function`. -/
def plot_equation_run (sympify_ok : String → Bool) (eval_ok : Bool) (saveOk : String → Bool)
    (hashv : ℕ) (eqn fname fmt : String) : Bool × List String :=
  if equation_parse_ok sympify_ok eqn && eval_ok then
    match save_with_fallback saveOk hashv fname fmt with
    | (some _, w) => (true, w)
    | (none, w) => (false, w)
  else (false, [])

/-! ### CLI `main` branches -/

/-- Errors raised inside `main`'s prompt loop before plotting. -/
inductive CLIError : Type where
  | invalidExpr : CLIError
  | invalidRange : CLIError
deriving DecidableEq, Repr

/-- The function branch of `main`: validate the expression, check
`x_min >= x_max` (raising before any filename resolution, sampling or save),
then resolve the filename and run `plot_function`. The second component lists
every file written during the run. -/
def run_function_branch (sympify_ok : String → Bool) (eval_ok : Bool) (ex saveOk : String → Bool)
    (hashv fuel : ℕ) (raw : String) (x_min x_max : ℚ) (fnameInput fmt : String) :
    Except CLIError Bool × List String :=
  if sympify_ok (normalizeCarets raw) then
    if x_min ≥ x_max then (.error .invalidRange, [])
    else
      let fname := get_safe_filename ex fuel fnameInput fmt
      let res := plot_function_run (sympify_ok (normalizeCarets raw)) eval_ok saveOk hashv fname fmt
      (.ok res.1, res.2)
  else (.error .invalidExpr, [])

/-- The equation branch of `main`: check `x_min >= x_max or y_min >= y_max`
first (no validation precedes it), then resolve the filename and run
`plot_equation`. -/
def run_equation_branch (sympify_ok : String → Bool) (eval_ok : Bool) (ex saveOk : String → Bool)
    (hashv fuel : ℕ) (raw : String) (x_min x_max y_min y_max : ℚ) (fnameInput fmt : String) :
    Except CLIError Bool × List String :=
  if x_min ≥ x_max ∨ y_min ≥ y_max then (.error .invalidRange, [])
  else
    let fname := get_safe_filename ex fuel fnameInput fmt
    let res := plot_equation_run sympify_ok eval_ok saveOk hashv raw fname fmt
    (.ok res.1, res.2)

/-! ## Theorems -/

/-! ### Injectivity of the decimal counter rendering -/

theorem decChars_small {n : ℕ} (h : n < 10) : decChars n = [Nat.digitChar n] := by
  rw [decChars, if_pos h]

theorem decChars_large {n : ℕ} (h : ¬ n < 10) :
    decChars n = decChars (n / 10) ++ [Nat.digitChar (n % 10)] := by
  rw [decChars, if_neg h]

theorem toDigitsCore_eq_decChars :
    ∀ (f n : ℕ) (acc : List Char), n < f →
      Nat.toDigitsCore 10 f n acc = decChars n ++ acc := by
  intro f
  induction f with
  | zero => intro n acc h; omega
  | succ f ih =>
    intro n acc h
    by_cases h10 : n < 10
    · have hdz : n / 10 = 0 := by omega
      simp [Nat.toDigitsCore, hdz, decChars_small h10, Nat.mod_eq_of_lt h10]
    · have hdz : ¬ n / 10 = 0 := by omega
      have hlt : n / 10 < f := by
        have : n / 10 < n := Nat.div_lt_self (by omega) (by omega)
        omega
      simp only [Nat.toDigitsCore, hdz, if_false]
      rw [ih (n / 10) _ hlt, decChars_large h10]
      simp

theorem repr_data_eq_decChars (n : ℕ) : (Nat.repr n).data = decChars n := by
  have h := toDigitsCore_eq_decChars (n + 1) n [] (by omega)
  simp only [Nat.repr, Nat.toDigits, h, List.append_nil]
  rfl

theorem digitChar_inj_lt (a b : ℕ) (ha : a < 10) (hb : b < 10)
    (h : Nat.digitChar a = Nat.digitChar b) : a = b := by
  interval_cases a <;> interval_cases b <;> first | rfl | (exfalso; revert h; decide)

theorem decChars_ne_nil (n : ℕ) : decChars n ≠ [] := by
  by_cases h : n < 10
  · rw [decChars_small h]; simp
  · rw [decChars_large h]; simp

theorem decChars_injective : ∀ m n : ℕ, decChars m = decChars n → m = n := by
  intro m
  induction m using Nat.strong_induction_on with
  | _ m ih =>
    intro n h
    by_cases hm : m < 10 <;> by_cases hn : n < 10
    · rw [decChars_small hm, decChars_small hn] at h
      exact digitChar_inj_lt m n hm hn (List.cons.injEq _ _ _ _ ▸ h).1
    · exfalso
      rw [decChars_small hm, decChars_large hn] at h
      have hlen := congrArg List.length h
      simp only [List.length_cons, List.length_nil, List.length_append] at hlen
      have : (decChars (n / 10)).length = 0 := by omega
      exact decChars_ne_nil (n / 10) (List.length_eq_zero.mp this)
    · exfalso
      rw [decChars_large hm, decChars_small hn] at h
      have hlen := congrArg List.length h
      simp only [List.length_cons, List.length_nil, List.length_append] at hlen
      have : (decChars (m / 10)).length = 0 := by omega
      exact decChars_ne_nil (m / 10) (List.length_eq_zero.mp this)
    · rw [decChars_large hm, decChars_large hn] at h
      have hp := List.append_inj' h (by simp)
      have h1 : m / 10 = n / 10 :=
        ih (m / 10) (Nat.div_lt_self (by omega) (by omega)) (n / 10) hp.1
      have h2 : m % 10 = n % 10 := by
        have hc := (List.cons.injEq _ _ _ _ ▸ hp.2).1
        exact digitChar_inj_lt _ _ (by omega) (by omega) hc
      omega

theorem nat_repr_injective (m n : ℕ) (h : Nat.repr m = Nat.repr n) : m = n := by
  apply decChars_injective
  rw [← repr_data_eq_decChars, ← repr_data_eq_decChars, h]

/-! ### Filename resolution -/

theorem safe_candidate_inj (b : String) {k₁ k₂ : ℕ}
    (h : safe_candidate b k₁ = safe_candidate b k₂) : k₁ = k₂ := by
  unfold safe_candidate at h
  have hd := congrArg String.data h
  simp only [String.data_append] at hd
  have h1 := List.append_cancel_right hd
  have h2 := List.append_cancel_left h1
  exact nat_repr_injective _ _ (String.ext h2)

theorem exists_free_candidate (S : Finset String) (ex : String → Bool)
    (hex : ∀ n, ex n = true → n ∈ S) (b : String) :
    ∃ k, 1 ≤ k ∧ k ≤ S.card + 1 ∧ ex (safe_candidate b k) = false := by
  by_contra hcon
  push_neg at hcon
  have hmap : ∀ k ∈ Finset.range (S.card + 1), safe_candidate b (k + 1) ∈ S := by
    intro k hk
    apply hex
    have hk' : k < S.card + 1 := Finset.mem_range.mp hk
    have := hcon (k + 1) (by omega) (by omega)
    simpa using this
  have hinj : Set.InjOn (fun k => safe_candidate b (k + 1)) (Finset.range (S.card + 1)) := by
    intro a _ c _ hac
    have := safe_candidate_inj b hac
    omega
  have hcard := Finset.card_le_card_of_injOn _ hmap hinj
  simp at hcard

theorem safe_loop_stop {ex : String → Bool} {b cur : String} {fuel counter : ℕ}
    (h : ex cur = false) : safe_loop ex b fuel counter cur = cur := by
  cases fuel <;> simp [safe_loop, h]

theorem safe_loop_finds (ex : String → Bool) (b : String) (k : ℕ)
    (hk : ex (safe_candidate b k) = false) :
    ∀ (fuel counter : ℕ) (cur : String), ex cur = true → counter ≤ k →
      (∀ j, counter ≤ j → j < k → ex (safe_candidate b j) = true) →
      k + 1 ≤ fuel + counter →
      safe_loop ex b fuel counter cur = safe_candidate b k := by
  intro fuel
  induction fuel with
  | zero => intro counter cur _ hck _ hfuel; omega
  | succ fuel ih =>
    intro counter cur hcur hck hall hfuel
    simp only [safe_loop, hcur, if_true]
    by_cases hek : counter = k
    · subst hek
      exact safe_loop_stop hk
    · exact ih (counter + 1) _ (hall counter le_rfl (by omega)) (by omega)
        (fun j hj1 hj2 => hall j (by omega) hj2) (by omega)

theorem get_safe_filename_spec (S : Finset String) (ex : String → Bool) (base fmt : String)
    (fuel : ℕ) (hex : ∀ n, ex n = true → n ∈ S) (hfuel : S.card + 2 ≤ fuel) :
    (ex (addExtension base fmt) = false →
      get_safe_filename ex fuel base fmt = addExtension base fmt) ∧
    (ex (addExtension base fmt) = true →
      ∃ k, 1 ≤ k ∧ ex (safe_candidate (addExtension base fmt) k) = false ∧
        get_safe_filename ex fuel base fmt = safe_candidate (addExtension base fmt) k ∧
        ∀ j, 1 ≤ j → j < k → ex (safe_candidate (addExtension base fmt) j) = true) := by
  constructor
  · intro hb
    exact safe_loop_stop hb
  · intro hb
    obtain ⟨k, hk1, hkle, hkfree⟩ := exists_free_candidate S ex hex (addExtension base fmt)
    have hQ : ∃ m, ex (safe_candidate (addExtension base fmt) (m + 1)) = false := by
      refine ⟨k - 1, ?_⟩
      rwa [Nat.sub_add_cancel hk1]
    refine ⟨Nat.find hQ + 1, by omega, Nat.find_spec hQ, ?_, ?_⟩
    · apply safe_loop_finds _ _ _ (Nat.find_spec hQ) fuel 1 _ hb (by omega)
      · intro j hj1 hj2
        have hmin := Nat.find_min hQ (m := j - 1) (by omega)
        have hj : j - 1 + 1 = j := by omega
        rw [hj] at hmin
        simpa using hmin
      · have hfind : Nat.find hQ ≤ k - 1 := by
          apply Nat.find_min' hQ
          rwa [Nat.sub_add_cancel hk1]
        omega
    · intro j hj1 hj2
      have hmin := Nat.find_min hQ (m := j - 1) (by omega)
      have hj : j - 1 + 1 = j := by omega
      rw [hj] at hmin
      simpa using hmin

theorem get_safe_filename_not_ex (S : Finset String) (ex : String → Bool) (base fmt : String)
    (fuel : ℕ) (hex : ∀ n, ex n = true → n ∈ S) (hfuel : S.card + 2 ≤ fuel) :
    ex (get_safe_filename ex fuel base fmt) = false := by
  obtain ⟨h1, h2⟩ := get_safe_filename_spec S ex base fmt fuel hex hfuel
  by_cases hb : ex (addExtension base fmt) = true
  · obtain ⟨k, _, hkfree, hres, _⟩ := h2 hb
    rwa [hres]
  · have hb' : ex (addExtension base fmt) = false := by simpa using hb
    rwa [h1 hb']

theorem addExtension_endsWith (base fmt : String) :
    strEndsWith (addExtension base fmt) ("." ++ fmt) = true := by
  unfold addExtension
  by_cases hb : strEndsWith (if base = "" then "output" else base) ("." ++ fmt) = true
  · simp [hb]
  · have hb' : strEndsWith (if base = "" then "output" else base) ("." ++ fmt) = false := by
      simpa using hb
    simp only [hb', Bool.false_eq_true, if_false]
    unfold strEndsWith
    rw [List.isSuffixOf_iff_suffix]
    simp only [String.data_append]
    rw [List.append_assoc]
    exact List.suffix_append _ _

/-- C2: filename resolution defaults an empty name to "output", appends
`.<format>` when the name does not already end with it, and on collision with
an existing path inserts `_1`, `_2`, … before the extension until a
non-existing path is found; with `output.svg` existing it yields
`output_1.svg`, with that also existing `output_2.svg`, and it never returns
the name of an existing file. -/
theorem C2_filename_resolution (S : Finset String) (ex : String → Bool) (base fmt : String)
    (fuel : ℕ) (hex : ∀ n, ex n = true → n ∈ S) (hfuel : S.card + 2 ≤ fuel) :
    addExtension "" fmt = addExtension "output" fmt ∧
    strEndsWith (addExtension base fmt) ("." ++ fmt) = true ∧
    (strEndsWith base ("." ++ fmt) = true → base ≠ "" → addExtension base fmt = base) ∧
    ex (get_safe_filename ex fuel base fmt) = false ∧
    (ex (addExtension base fmt) = true →
      ∃ k, 1 ≤ k ∧
        get_safe_filename ex fuel base fmt = safe_candidate (addExtension base fmt) k) ∧
    get_safe_filename (fun n => n == "output.svg") 3 "output" "svg" = "output_1.svg" ∧
    get_safe_filename (fun n => n == "output.svg" || n == "output_1.svg") 4 "output" "svg" =
      "output_2.svg" := by
  refine ⟨rfl, addExtension_endsWith base fmt, ?_, ?_, ?_, by decide, by decide⟩
  · intro hends hne
    unfold addExtension
    simp [hne, hends]
  · exact get_safe_filename_not_ex S ex base fmt fuel hex hfuel
  · intro hb
    obtain ⟨k, hk1, _, hres, _⟩ :=
      (get_safe_filename_spec S ex base fmt fuel hex hfuel).2 hb
    exact ⟨k, hk1, hres⟩

/-- Witness for C2 at the concrete filesystem `{output.svg}`. -/
theorem C2_filename_resolution_witness :
    (∀ n : String, (n == "output.svg") = true → n ∈ ({"output.svg"} : Finset String)) ∧
    ({"output.svg"} : Finset String).card + 2 ≤ 3 ∧
    get_safe_filename (fun n => n == "output.svg") 3 "output" "svg" = "output_1.svg" := by
  have hex : ∀ n : String, (n == "output.svg") = true → n ∈ ({"output.svg"} : Finset String) := by
    intro n h
    simp only [beq_iff_eq] at h
    simp [h]
  have hfuel : ({"output.svg"} : Finset String).card + 2 ≤ 3 := by simp
  exact ⟨hex, hfuel,
    (C2_filename_resolution {"output.svg"} (fun n => n == "output.svg") "output" "svg" 3
      hex hfuel).2.2.2.2.2.1⟩

/-- C10: with filesystem existence modelled as an injectable predicate that is
true on only finitely many names, the collision loop of `get_safe_filename`
terminates (the fuel `|S| + 2` suffices and the result no longer exists), and
it returns the base name itself when free, otherwise the candidate with the
smallest counter `k ≥ 1` that does not exist. -/
theorem C10_collision_loop (S : Finset String) (ex : String → Bool) (base fmt : String)
    (fuel : ℕ) (hex : ∀ n, ex n = true → n ∈ S) (hfuel : S.card + 2 ≤ fuel) :
    ex (get_safe_filename ex fuel base fmt) = false ∧
    (ex (addExtension base fmt) = false →
      get_safe_filename ex fuel base fmt = addExtension base fmt) ∧
    (ex (addExtension base fmt) = true →
      ∃ k, 1 ≤ k ∧ ex (safe_candidate (addExtension base fmt) k) = false ∧
        get_safe_filename ex fuel base fmt = safe_candidate (addExtension base fmt) k ∧
        ∀ j, 1 ≤ j → j < k → ex (safe_candidate (addExtension base fmt) j) = true) :=
  ⟨get_safe_filename_not_ex S ex base fmt fuel hex hfuel,
    (get_safe_filename_spec S ex base fmt fuel hex hfuel).1,
    (get_safe_filename_spec S ex base fmt fuel hex hfuel).2⟩

/-- Witness for C10 at the concrete filesystem `{output.svg}`: the loop stops
at the least free counter. -/
theorem C10_collision_loop_witness :
    (∀ n : String, (n == "output.svg") = true → n ∈ ({"output.svg"} : Finset String)) ∧
    ({"output.svg"} : Finset String).card + 2 ≤ 3 ∧
    (∃ k, 1 ≤ k ∧
      (fun n => n == "output.svg") (safe_candidate (addExtension "output" "svg") k) = false ∧
      get_safe_filename (fun n => n == "output.svg") 3 "output" "svg" =
        safe_candidate (addExtension "output" "svg") k ∧
      ∀ j, 1 ≤ j → j < k →
        (fun n => n == "output.svg") (safe_candidate (addExtension "output" "svg") j) = true) := by
  have hex : ∀ n : String, (n == "output.svg") = true → n ∈ ({"output.svg"} : Finset String) := by
    intro n h
    simp only [beq_iff_eq] at h
    simp [h]
  have hfuel : ({"output.svg"} : Finset String).card + 2 ≤ 3 := by simp
  exact ⟨hex, hfuel,
    (C10_collision_loop {"output.svg"} (fun n => n == "output.svg") "output" "svg" 3
      hex hfuel).2.2 (by decide)⟩

/-! ### Sampling -/

theorem linspace_length (a b : ℚ) (n : ℕ) : (linspace a b n).length = n := by
  rw [linspace, List.length_map, List.length_range]

theorem linspace_getElem? (a b : ℚ) {n i : ℕ} (h : i < n) :
    (linspace a b n)[i]? = some (a + (b - a) * (i : ℚ) / ((n : ℚ) - 1)) := by
  rw [linspace, List.getElem?_map, List.getElem?_range h]
  rfl

/-- C1: for every 1-variable expression and range `[a, b]` with `a < b`, the
sampler builds exactly 1000 evenly spaced points whose first point is `a` and
last point is `b` (exactly, in the rational model), and the `y` value at every
sample is the expression evaluated at that `x` (`none` — NaN — when undefined,
never an exception); for the equation case it builds a 400×400 grid over
`[x_min, x_max] × [y_min, y_max]` and evaluates the compiled `lhs - rhs`
expression at every grid point. -/
theorem C1_sampler (E : Expr) (F : Expr2) (a b xm xM ym yM : ℚ)
    (hab : a < b) (hx : xm < xM) (hy : ym < yM) :
    (function_sample_xs a b).length = 1000 ∧
    (function_sample_xs a b)[0]? = some a ∧
    (function_sample_xs a b)[999]? = some b ∧
    (∀ i u v, i + 1 < 1000 → (function_sample_xs a b)[i]? = some u →
      (function_sample_xs a b)[i + 1]? = some v → v - u = (b - a) / 999) ∧
    (function_sample_ys E a b).length = 1000 ∧
    (∀ (i : ℕ), (function_sample_ys E a b)[i]? = ((function_sample_xs a b)[i]?).map E.eval) ∧
    (equation_grid_Z F xm xM ym yM).length = 400 ∧
    (∀ row ∈ equation_grid_Z F xm xM ym yM, row.length = 400) ∧
    (∀ (i j : ℕ), i < 400 → j < 400 →
      ((equation_grid_Z F xm xM ym yM)[i]?.bind fun row => row[j]?) =
        some (F.eval (xm + (xM - xm) * (j : ℚ) / 399) (ym + (yM - ym) * (i : ℚ) / 399))) := by
  refine ⟨linspace_length a b 1000, ?_, ?_, ?_, ?_, ?_, ?_, ?_, ?_⟩
  · rw [function_sample_xs, linspace_getElem? a b (by norm_num : (0:ℕ) < 1000)]
    norm_num
  · rw [function_sample_xs, linspace_getElem? a b (by norm_num : (999:ℕ) < 1000)]
    norm_num
  · intro i u v hi hu hv
    rw [function_sample_xs, linspace_getElem? a b (by omega : i < 1000)] at hu
    rw [function_sample_xs, linspace_getElem? a b (by omega : i + 1 < 1000)] at hv
    injection hu with hu
    injection hv with hv
    subst hu hv
    push_cast
    ring
  · rw [function_sample_ys, List.length_map, function_sample_xs, linspace_length]
  · intro i
    rw [function_sample_ys, List.getElem?_map]
  · rw [equation_grid_Z, List.length_map, linspace_length]
  · intro row hrow
    simp only [equation_grid_Z, List.mem_map] at hrow
    obtain ⟨vy, _, hrow⟩ := hrow
    rw [← hrow, List.length_map, linspace_length]
  · intro i j hi hj
    rw [equation_grid_Z, List.getElem?_map, linspace_getElem? ym yM hi, Option.map_some',
      Option.some_bind, List.getElem?_map, linspace_getElem? xm xM hj, Option.map_some']
    norm_num

/-- Witness for C1 at `E = x`, `F = x·x + y·y - 1`, ranges `[0, 1]`. -/
theorem C1_sampler_witness :
    (0 : ℚ) < 1 ∧ (function_sample_xs 0 1).length = 1000 ∧
      (function_sample_xs 0 1)[999]? = some 1 :=
  ⟨by norm_num,
    (C1_sampler .var (.sub (.add (.mul .varX .varX) (.mul .varY .varY)) (.num 1)) 0 1 0 1 0 1
      (by norm_num) (by norm_num) (by norm_num)).1,
    (C1_sampler .var (.sub (.add (.mul .varX .varX) (.mul .varY .varY)) (.num 1)) 0 1 0 1 0 1
      (by norm_num) (by norm_num) (by norm_num)).2.2.1⟩

/-! ### Equation splitting -/

theorem splitOnChar_ne_nil (c : Char) (l : List Char) : splitOnChar c l ≠ [] := by
  induction l with
  | nil => simp [splitOnChar]
  | cons a rest ih =>
    rw [splitOnChar]
    cases hsp : splitOnChar c rest with
    | nil => exact absurd hsp ih
    | cons h t => by_cases hac : a = c <;> simp [hac]

theorem splitOnChar_length (c : Char) (l : List Char) :
    (splitOnChar c l).length = l.count c + 1 := by
  induction l with
  | nil => simp [splitOnChar]
  | cons a rest ih =>
    rw [splitOnChar]
    cases hsp : splitOnChar c rest with
    | nil => exact absurd hsp (splitOnChar_ne_nil c rest)
    | cons h t =>
      rw [hsp] at ih
      simp only [List.length_cons] at ih
      dsimp only
      by_cases hac : a = c
      · subst hac
        rw [if_pos rfl, List.count_cons, if_pos (beq_self_eq_true a)]
        simp only [List.length_cons]
        omega
      · have hbeq : (a == c) = false := by simpa using hac
        rw [if_neg hac, List.count_cons, hbeq]
        simp only [List.length_cons, if_false, Bool.false_eq_true, Nat.add_zero]
        omega

theorem splitOnChar_of_count_zero (c : Char) (l : List Char) (h : l.count c = 0) :
    splitOnChar c l = [l] := by
  induction l with
  | nil => simp [splitOnChar]
  | cons a rest ih =>
    rw [List.count_cons] at h
    by_cases hac : a = c
    · subst hac
      simp at h
    · have hbeq : (a == c) = false := by simpa using hac
      rw [hbeq] at h
      simp only [if_false, Bool.false_eq_true, Nat.add_zero] at h
      rw [splitOnChar, ih h]
      simp [hac]

theorem splitOnChar_of_count_one (c : Char) (l : List Char) (h : l.count c = 1) :
    splitOnChar c l =
      [l.takeWhile (fun x => x != c), (l.dropWhile (fun x => x != c)).tail] := by
  induction l with
  | nil => simp at h
  | cons a rest ih =>
    rw [List.count_cons] at h
    by_cases hac : a = c
    · subst hac
      simp only [if_pos (beq_self_eq_true a)] at h
      have hr : rest.count a = 0 := by omega
      rw [splitOnChar, splitOnChar_of_count_zero a rest hr]
      simp
    · have hbeq : (a == c) = false := by simpa using hac
      rw [hbeq] at h
      simp only [if_false, Bool.false_eq_true, Nat.add_zero] at h
      rw [splitOnChar, ih h]
      simp [hac, hbeq]

/-- C4 counterexample: on `"x=y=1"` the code splits on EVERY `=` (Python
`str.split`), so the 2-tuple unpacking fails with a `ValueError` instead of
treating `"y=1"` as the right side as the claim states; `splitFirstEq` shows
what the claimed first-occurrence policy would have produced. -/
theorem C4_counterexample :
    normalize_equation "x=y=1" = .error "too many values to unpack" ∧
    splitFirstEq "x=y=1" = .diff "x" "y=1" := by
  constructor <;> rfl

/-- C4 amended: when the input contains exactly one `=` the normalizer splits
there into left and right sub-strings; an input with no `=` is treated as
`expr = 0` (its implicit curve is the zero-set of the parsed expression
itself); but an input with two or more `=` makes the tuple unpacking raise
(caught by the plot boundary) instead of splitting on the first occurrence. -/
theorem C4_eq_split (s : String) :
    ((normalizeCarets s).data.count '=' = 1 →
      normalize_equation s = .ok (.diff
        (String.mk ((normalizeCarets s).data.takeWhile (fun x => x != '=')))
        (String.mk (((normalizeCarets s).data.dropWhile (fun x => x != '=')).tail)))) ∧
    ((normalizeCarets s).data.count '=' = 0 →
      normalize_equation s = .ok (.plain (normalizeCarets s))) ∧
    (2 ≤ (normalizeCarets s).data.count '=' →
      normalize_equation s = .error "too many values to unpack") := by
  refine ⟨?_, ?_, ?_⟩
  · intro h1
    have hmem : '=' ∈ (normalizeCarets s).data := by
      rw [← List.count_pos_iff]
      omega
    simp only [normalize_equation, pySplit]
    rw [if_pos hmem, splitOnChar_of_count_one '=' _ h1]
    rfl
  · intro h0
    have hmem : '=' ∉ (normalizeCarets s).data := List.count_eq_zero.mp h0
    simp only [normalize_equation]
    rw [if_neg hmem]
  · intro h2
    have hmem : '=' ∈ (normalizeCarets s).data := by
      rw [← List.count_pos_iff]
      omega
    have hlen := splitOnChar_length '=' (normalizeCarets s).data
    simp only [normalize_equation, pySplit]
    rw [if_pos hmem]
    rcases hsp : splitOnChar '=' (normalizeCarets s).data with _ | ⟨p1, _ | ⟨p2, _ | ⟨p3, ps⟩⟩⟩
    · rw [hsp] at hlen
      simp only [List.length_nil] at hlen
      omega
    · rw [hsp] at hlen
      simp only [List.length_cons, List.length_nil] at hlen
      omega
    · rw [hsp] at hlen
      simp only [List.length_cons, List.length_nil] at hlen
      omega
    · rfl

/-- Witness for the amended C4 at concrete inputs. -/
theorem C4_eq_split_witness :
    normalize_equation "x=1" = .ok (.diff "x" "1") ∧
    normalize_equation "x+1" = .ok (.plain "x+1") ∧
    normalize_equation "x=y=1" = .error "too many values to unpack" := by
  refine ⟨?_, ?_, ?_⟩
  · exact (C4_eq_split "x=1").1 (by decide)
  · exact (C4_eq_split "x+1").2.1 (by decide)
  · exact (C4_eq_split "x=y=1").2.2 (by decide)

/-! ### Validation errors -/

/-- C5 counterexample: `validate_function` raises the fixed message
`"Invalid function expression"`, which contains neither the original input
`"x^^2"` nor the parser's own message, so neither is surfaced. -/
theorem C5_counterexample :
    validate_function (fun _ => .error "SympifyError: could not parse") "x^^2" =
      .error "Invalid function expression" ∧
    containsSub "x^^2".data "Invalid function expression".data = false ∧
    containsSub "SympifyError: could not parse".data "Invalid function expression".data =
      false := by
  refine ⟨rfl, by decide, by decide⟩

/-- C5 amended: when the symbolic parser throws, validation fails with a
`ValueError` carrying the constant message `"Invalid function expression"`;
the original string and the underlying parser message are discarded, and every
error the validator can produce carries that same constant message. -/
theorem C5_constant_error (parse : String → Except String Unit) (s msg : String)
    (h : parse (normalizeCarets s) = .error msg) :
    validate_function parse s = .error "Invalid function expression" ∧
    ∀ t u, validate_function parse t = .error u → u = "Invalid function expression" := by
  constructor
  · rw [validate_function, h]
  · intro t u hu
    rw [validate_function] at hu
    cases hp : parse (normalizeCarets t) with
    | ok v =>
      rw [hp] at hu
      cases hu
    | error m =>
      rw [hp] at hu
      exact (Except.error.injEq _ _ ▸ hu).symm

/-- Witness for the amended C5 at a concrete failing parser. -/
theorem C5_constant_error_witness :
    (fun _ : String => (Except.error "boom" : Except String Unit)) (normalizeCarets "x^^2") =
      .error "boom" ∧
    validate_function (fun _ => .error "boom") "x^^2" = .error "Invalid function expression" :=
  ⟨rfl, (C5_constant_error (fun _ => .error "boom") "x^^2" "boom" rfl).1⟩

/-! ### Export fallback policy -/

/-- C6 counterexample: with a write that fails exactly on `"out.svg"`, the CLI
save path falls back to the derived name and succeeds, but the GUI export path
(`export_current_figure`) reports failure with no fallback attempt — the
claimed policy does NOT apply to every export path of the program. -/
theorem C6_counterexample :
    (gui_export (fun n => !(n == "out.svg")) "out.svg" "svg").1 = false ∧
    (fun n => !(n == "out.svg")) (derived_fallback_name 42 "svg") = true ∧
    (save_with_fallback (fun n => !(n == "out.svg")) 42 "out.svg" "svg").1 =
      some (derived_fallback_name 42 "svg") := by
  refine ⟨by decide, by decide, by decide⟩

/-- C6 amended: in the CLI save paths (`plot_function` / `plot_equation`) a
failed initial write falls back exactly once to
`output_<hash(input) mod 10000>.<format>`, reporting the name actually used;
if the fallback also fails the error surfaces with no further retry; the GUI
export path attempts the write once and performs no fallback at all. -/
theorem C6_fallback_policy (saveOk : String → Bool) (hashv : ℕ) (fname fmt : String) :
    (saveOk fname = true → save_with_fallback saveOk hashv fname fmt = (some fname, [fname])) ∧
    (saveOk fname = false → saveOk (derived_fallback_name hashv fmt) = true →
      save_with_fallback saveOk hashv fname fmt =
        (some (derived_fallback_name hashv fmt), [derived_fallback_name hashv fmt])) ∧
    (saveOk fname = false → saveOk (derived_fallback_name hashv fmt) = false →
      save_with_fallback saveOk hashv fname fmt = (none, [])) ∧
    (gui_export saveOk fname fmt).1 = saveOk fname := by
  refine ⟨?_, ?_, ?_, ?_⟩
  · intro h
    rw [save_with_fallback, if_pos h]
  · intro h1 h2
    rw [save_with_fallback, h1]
    simp [h2]
  · intro h1 h2
    rw [save_with_fallback, h1]
    simp [h2]
  · rw [gui_export]
    cases h : saveOk fname <;> simp [h]

/-- Witness for the amended C6 at a concrete always-succeeding write. -/
theorem C6_fallback_policy_witness :
    (fun _ : String => true) "plot.svg" = true ∧
    save_with_fallback (fun _ => true) 7 "plot.svg" "svg" = (some "plot.svg", ["plot.svg"]) :=
  ⟨rfl, (C6_fallback_policy (fun _ => true) 7 "plot.svg" "svg").1 rfl⟩

/-! ### Caret normalization round-trip -/

/-- C7: normalizing `"x^2+1"` produces exactly `"x**2+1"`, so parsing the
normalized string is literally parsing `"x**2+1"` — the round-trip yields the
same symbolic expression for any parser. -/
theorem C7_caret_roundtrip :
    normalizeCarets "x^2+1" = "x**2+1" ∧
    ∀ (α : Type) (sympify : String → α),
      sympify (normalizeCarets "x^2+1") = sympify "x**2+1" := by
  constructor
  · rfl
  · intro α f
    rfl

/-! ### LaTeX sanitization of displayed strings -/

theorem mem_of_mem_removeSubAux (p : List Char) :
    ∀ (l : List Char) (k : ℕ) (a : Char), a ∈ removeSubAux p l k → a ∈ l := by
  intro l
  induction l with
  | nil =>
    intro k a h
    simp only [removeSubAux] at h
    exact absurd h (List.not_mem_nil a)
  | cons b rest ih =>
    intro k a h
    cases k with
    | succ k =>
      simp only [removeSubAux] at h
      exact List.mem_cons_of_mem b (ih k a h)
    | zero =>
      simp only [removeSubAux] at h
      by_cases hc : (p.isPrefixOf (b :: rest) && !p.isEmpty) = true
      · rw [if_pos hc] at h
        exact List.mem_cons_of_mem b (ih _ a h)
      · rw [if_neg hc] at h
        rcases List.mem_cons.mp h with h1 | h2
        · exact h1 ▸ List.mem_cons_self b rest
        · exact List.mem_cons_of_mem b (ih 0 a h2)

theorem mem_of_mem_removeSub (p : List Char) (l : List Char) (a : Char)
    (h : a ∈ removeSub p l) : a ∈ l :=
  mem_of_mem_removeSubAux p l 0 a h

/-- C8 counterexample: the equation title is built from the RAW `latex(eq)`
string, so a typeset equality containing `\left`/`\right` is displayed
unsanitized (the sanitizer would have removed them, as the third conjunct
shows) — not every displayed typeset string passes through the sanitization. -/
theorem C8_counterexample :
    equation_title_of "\\left( x + 1 \\right) = 2" = "$\\left( x + 1 \\right) = 2$" ∧
    containsSub "\\left".data (equation_title_of "\\left( x + 1 \\right) = 2").data = true ∧
    containsSub "\\left".data (clean_latex_string "\\left( x + 1 \\right) = 2").data = false := by
  refine ⟨rfl, by decide, by decide⟩

/-- C8 amended: the sanitizer's success branch strips every `$`; the function
title and legend are built from the sanitized string (they coincide), but the
equation title is built directly from the raw `latex(eq)` output with no
sanitization applied. -/
theorem C8_sanitization :
    (∀ tex : String, '$' ∉ (clean_latex_string tex).data) ∧
    (∀ latexed fallbackStr, function_title_of latexed fallbackStr =
      "$f(x) = " ++ clean_latex_expression latexed fallbackStr ++ "$") ∧
    (∀ latexed fallbackStr, function_legend_of latexed fallbackStr =
      function_title_of latexed fallbackStr) ∧
    (∀ t, equation_title_of t = "$" ++ t ++ "$") := by
  refine ⟨?_, fun _ _ => rfl, fun _ _ => rfl, fun _ => rfl⟩
  intro tex hmem
  have h1 := mem_of_mem_removeSub _ _ _ hmem
  have h2 := mem_of_mem_removeSub _ _ _ h1
  have h3 := (List.mem_filter.mp h2).2
  simp at h3

/-! ### Range validation in the CLI -/

/-- C3: with `x_min ≥ x_max` (or, in the equation case, `y_min ≥ y_max`) the
CLI branch fails with the invalid-range error before any filename resolution,
sampling, rendering or saving — the run writes no file at all. -/
theorem C3_invalid_range (sympify_ok : String → Bool) (eval_ok : Bool)
    (ex saveOk : String → Bool) (hashv fuel : ℕ) (raw rawE : String)
    (x_min x_max xe_min xe_max ye_min ye_max : ℚ) (fnameInput fmt : String)
    (hv : sympify_ok (normalizeCarets raw) = true)
    (hx : x_max ≤ x_min) (hxy : xe_max ≤ xe_min ∨ ye_max ≤ ye_min) :
    run_function_branch sympify_ok eval_ok ex saveOk hashv fuel raw x_min x_max
      fnameInput fmt = (.error .invalidRange, []) ∧
    run_equation_branch sympify_ok eval_ok ex saveOk hashv fuel rawE
      xe_min xe_max ye_min ye_max fnameInput fmt = (.error .invalidRange, []) := by
  constructor
  · rw [run_function_branch]
    simp only [hv, if_true]
    rw [if_pos hx]
  · rw [run_equation_branch, if_pos hxy]

/-- Witness for C3 at concrete degenerate ranges. -/
theorem C3_invalid_range_witness :
    (fun _ : String => true) (normalizeCarets "x") = true ∧
    (1 : ℚ) ≤ 1 ∧
    run_function_branch (fun _ => true) true (fun _ => false) (fun _ => true) 0 3 "x" 1 1
      "" "svg" = (.error .invalidRange, []) := by
  refine ⟨rfl, le_refl 1, ?_⟩
  exact (C3_invalid_range (fun _ => true) true (fun _ => false) (fun _ => true) 0 3 "x" "y"
    1 1 2 1 0 0 "" "svg" rfl (le_refl 1) (Or.inl (by norm_num))).1

/-! ### Totality of the plot boundary -/

/-- C9: `plot_function` and `plot_equation` are total at the public boundary —
modelled as total functions, they never propagate an exception — and return
`true` exactly when every pipeline stage (parse, evaluation, save or one-shot
fallback save) succeeded, `false` after any internal failure. -/
theorem C9_total_boundary (parse_ok eval_ok : Bool) (sympify_ok : String → Bool)
    (saveOk : String → Bool) (hashv : ℕ) (eqn fname fmt : String) :
    ((plot_function_run parse_ok eval_ok saveOk hashv fname fmt).1 = true ↔
      parse_ok = true ∧ eval_ok = true ∧
        (saveOk fname = true ∨ saveOk (derived_fallback_name hashv fmt) = true)) ∧
    ((plot_equation_run sympify_ok eval_ok saveOk hashv eqn fname fmt).1 = true ↔
      equation_parse_ok sympify_ok eqn = true ∧ eval_ok = true ∧
        (saveOk fname = true ∨ saveOk (derived_fallback_name hashv fmt) = true)) := by
  constructor
  · unfold plot_function_run save_with_fallback
    cases parse_ok <;> cases eval_ok <;>
      cases hf : saveOk fname <;> cases hd : saveOk (derived_fallback_name hashv fmt) <;>
        simp [hf, hd]
  · unfold plot_equation_run save_with_fallback
    cases hp : equation_parse_ok sympify_ok eqn <;> cases eval_ok <;>
      cases hf : saveOk fname <;> cases hd : saveOk (derived_fallback_name hashv fmt) <;>
        simp [hp, hf, hd]

end FunctionPlotter
